import Mathlib

/-!
Verification of the StrangeMetrics backend (src/app.py, the active FastAPI
section, lines 293-502) against its natural-language specification.

The embedding models the pure aggregation logic of each endpoint.  Network
responses are passed in explicitly: a handler that in Python performs an HTTP
GET and inspects `resp.status_code` / `resp.json()` becomes a Lean function
taking the decoded response as an argument.  Python `datetime` values are
modelled by their calendar fields (the bucket-key formats `%Y-%m-%d`, `%Y-%W`,
`%Y-%m` use only the date part, so time-of-day fields are omitted).  CPython's
proleptic-Gregorian calendar functions (`toordinal`, `strftime` week numbers)
are reproduced exactly on that model.  Python strings are modelled as
`List Char` (Lean's `String` primitives do not reduce inside the kernel), with
`str` converting a Lean string literal to the model.
-/

set_option linter.unnecessarySeqFocus false

namespace StrangeMetrics

/-- Python strings are modelled as their character lists. -/
abbrev Str := List Char

/-- Inject a Lean string literal into the model. -/
def str (s : String) : Str := s.toList

/-! ## Calendar model (CPython `datetime` date part) -/

/-- A parsed commit author timestamp, reduced to its date part
(`datetime.strptime(..., '%Y-%m-%dT%H:%M:%SZ')` in `get_commits`;
`datetime.fromisoformat` in `get_contribution_heatmap`).  All bucket-key
formats used by the code depend only on year/month/day. -/
structure Datetime where
  year : ℕ
  month : ℕ
  day : ℕ
  deriving DecidableEq, Repr

/-- Gregorian leap-year test, as in CPython `calendar.isleap`. -/
def isLeap (y : ℕ) : Bool :=
  y % 4 == 0 && (y % 100 != 0 || y % 400 == 0)

/-- Days in the year strictly before month `m` (1-based), as in CPython
`datetime._days_before_month`. -/
def daysBeforeMonth (y m : ℕ) : ℕ :=
  [0, 31, 59, 90, 120, 151, 181, 212, 243, 273, 304, 334].getD (m - 1) 0
    + (if 3 ≤ m ∧ isLeap y then 1 else 0)

/-- Days before January 1 of year `y` in the proleptic Gregorian calendar,
as in CPython `datetime._days_before_year`. -/
def daysBeforeYear (y : ℕ) : ℕ :=
  365 * (y - 1) + (y - 1) / 4 - (y - 1) / 100 + (y - 1) / 400

/-- CPython `datetime.date.toordinal`: day number with 0001-01-01 as day 1. -/
def toOrdinal (dt : Datetime) : ℕ :=
  daysBeforeYear dt.year + daysBeforeMonth dt.year dt.month + dt.day

/-- Zero-based day of the year (`tm_yday - 1`). -/
def yday0 (dt : Datetime) : ℕ :=
  daysBeforeMonth dt.year dt.month + (dt.day - 1)

/-- Monday-based weekday (0 = Monday .. 6 = Sunday), as CPython
`date.weekday()`: 0001-01-01 (ordinal 1) is a Monday. -/
def weekdayMon (dt : Datetime) : ℕ :=
  (toOrdinal dt + 6) % 7

/-- Sunday-based weekday (0 = Sunday .. 6 = Saturday), as `strftime('%w')`. -/
def weekdaySun (dt : Datetime) : ℕ :=
  toOrdinal dt % 7

/-- `strftime('%W')`: week of the year with Monday as the first day of the
week; all days before the first Monday of the year are week 0. -/
def weekOfYearW (dt : Datetime) : ℕ :=
  (yday0 dt + 7 - weekdayMon dt) / 7

/-- `strftime('%U')`: week of the year with Sunday as the first day of the
week; all days before the first Sunday of the year are week 0. -/
def weekOfYearU (dt : Datetime) : ℕ :=
  (yday0 dt + 7 - weekdaySun dt) / 7

/-- Decimal digit to character. -/
def digitChar (d : ℕ) : Char :=
  match d with
  | 0 => '0' | 1 => '1' | 2 => '2' | 3 => '3' | 4 => '4'
  | 5 => '5' | 6 => '6' | 7 => '7' | 8 => '8' | _ => '9'

/-- Fueled decimal rendering accumulator (fuel bounds the digit count). -/
def natToCharsAux : ℕ → ℕ → List Char → List Char
  | 0, _, acc => acc
  | fuel + 1, n, acc =>
      if n < 10 then digitChar n :: acc
      else natToCharsAux fuel (n / 10) (digitChar (n % 10) :: acc)

/-- Decimal rendering of a natural number (`str(n)` / `%Y` field). -/
def natToChars (n : ℕ) : Str := natToCharsAux (n + 1) n []

/-- Two-digit zero padding, as `%m` / `%d` / `%W` field rendering. -/
def pad2 (n : ℕ) : Str :=
  if n < 10 then '0' :: natToChars n else natToChars n

/-- Bucket key for granularity `day`: `strftime('%Y-%m-%d')`. -/
def dayKey (dt : Datetime) : Str :=
  natToChars dt.year ++ ['-'] ++ pad2 dt.month ++ ['-'] ++ pad2 dt.day

/-- Bucket key for granularity `week`: `strftime('%Y-%W')` (the format the
code actually selects at src/app.py line 378). -/
def weekKey (dt : Datetime) : Str :=
  natToChars dt.year ++ ['-'] ++ pad2 (weekOfYearW dt)

/-- Bucket key for granularity `month`: `strftime('%Y-%m')`. -/
def monthKey (dt : Datetime) : Str :=
  natToChars dt.year ++ ['-'] ++ pad2 dt.month

/-- Modelled from the spec (§4.3): the week bucket key the specification
describes, `year + zero-padded week-of-year computed with Sunday as the first
day of the week` — i.e. `%Y-%U`, not the `%Y-%W` the code uses.  Kept as a
separate definition so the two conventions can be compared. -/
def sundayFirstWeekKey (dt : Datetime) : Str :=
  natToChars dt.year ++ ['-'] ++ pad2 (weekOfYearU dt)

example : weekKey ⟨2024, 1, 1⟩ = str "2024-01" := by decide
example : sundayFirstWeekKey ⟨2024, 1, 1⟩ = str "2024-00" := by decide
example : dayKey ⟨2024, 3, 7⟩ = str "2024-03-07" := by decide
example : weekKey ⟨2024, 12, 31⟩ = str "2024-53" := by decide

/-! ## Ordered tally (Python `defaultdict(int)` with `+= 1`)

A `defaultdict(int)` that is only ever incremented is an insertion-ordered
association list from keys to counts; `bump` is one `counts[key] += 1`. -/

/-- One `counts[key] += 1` on an insertion-ordered association list. -/
def bump {α : Type} [DecidableEq α] (key : α) : List (α × ℕ) → List (α × ℕ)
  | [] => [(key, 1)]
  | (k, n) :: rest =>
      if k = key then (k, n + 1) :: rest else (k, n) :: bump key rest

/-- `counts = defaultdict(int); for x in xs: counts[x] += 1`. -/
def tally {α : Type} [DecidableEq α] (xs : List α) : List (α × ℕ) :=
  xs.foldl (fun acc k => bump k acc) []

/-- `counts.get(key, 0)`. -/
def lookupZero {α : Type} [DecidableEq α] (counts : List (α × ℕ)) (key : α) : ℕ :=
  match counts with
  | [] => 0
  | (k, n) :: rest => if k = key then n else lookupZero rest key

/-! ## URL parser (`parse_github_url`, src/app.py lines 332-339) -/

/-- The single failure mode of `parse_github_url` (`raise ValueError`). -/
inductive ParseError where
  | invalidUrl
  deriving DecidableEq, Repr

/-- `url.rstrip('/')`: drop every trailing `/`. -/
def rstripSlash (s : Str) : Str :=
  (s.reverse.dropWhile (· = '/')).reverse

/-- Python `s.split('/')` (no maxsplit): `''.split('/') == ['']`, empty
segments kept. -/
def splitOnSlash : Str → List Str
  | [] => [[]]
  | c :: rest =>
      let r := splitOnSlash rest
      if c = '/' then [] :: r
      else
        match r with
        | s :: ss => (c :: s) :: ss
        | [] => [[c]]

/-- The cleaned string `parse_github_url` splits: trailing slashes removed,
then a trailing `.git` removed. -/
def cleanUrl (url : Str) : Str :=
  let clean := rstripSlash url
  if (str ".git").isSuffixOf clean then clean.take (clean.length - 4) else clean

/-- `parse_github_url` (src/app.py lines 332-339): split the cleaned string
on `/`; fewer than two parts is a `ValueError`, otherwise the result is the
last two parts.  Note the length test counts empty parts too. -/
def parse_github_url (url : Str) : Except ParseError (Str × Str) :=
  let parts := splitOnSlash (cleanUrl url)
  if parts.length < 2 then
    .error .invalidUrl
  else
    .ok (parts.getD (parts.length - 2) [], parts.getD (parts.length - 1) [])

deriving instance DecidableEq for Except

example : parse_github_url (str "https://github.com/o/r") = .ok (str "o", str "r") := by
  decide
example : parse_github_url (str "https://host/owner/repo/") =
    .ok (str "owner", str "repo") := by decide
example : parse_github_url (str "https://host/owner/repo.git") =
    .ok (str "owner", str "repo") := by decide
example : parse_github_url (str "repo") = .error .invalidUrl := by decide
example : parse_github_url (str "/repo") = .ok (str "", str "repo") := by decide

/-! ## Commit-frequency endpoint (`get_commits`, src/app.py lines 368-388) -/

/-- An upstream list response: HTTP status plus decoded JSON body. -/
structure UpstreamList (α : Type) where
  status : ℕ
  body : List α
  deriving Repr

/-- The two failure modes of `get_commits`: `HTTPException(400, "Failed to
fetch commits")` and `HTTPException(400, "Invalid frequency")`. -/
inductive CommitsError where
  | fetchFailed
  | invalidFrequency
  deriving DecidableEq, Repr

/-- The format-string dictionary lookup
`{'day': '%Y-%m-%d', 'week': '%Y-%W', 'month': '%Y-%m'}.get(request.frequency)`,
with each format realised as its key function. -/
def freqFormat (frequency : Str) : Option (Datetime → Str) :=
  if frequency = str "day" then some dayKey
  else if frequency = str "week" then some weekKey
  else if frequency = str "month" then some monthKey
  else none

/-- `get_commits` (src/app.py lines 368-388), past URL parsing: first the
upstream fetch is checked (non-200 fails the request), only then the
granularity is validated, and finally commits are tallied by bucket key. -/
def get_commits (resp : UpstreamList Datetime) (frequency : Str) :
    Except CommitsError (List (Str × ℕ)) :=
  if resp.status ≠ 200 then .error .fetchFailed
  else
    match freqFormat frequency with
    | none => .error .invalidFrequency
    | some fmt => .ok (tally (resp.body.map fmt))

example :
    get_commits ⟨200, [⟨2024, 1, 1⟩, ⟨2024, 1, 1⟩, ⟨2024, 1, 3⟩]⟩ (str "day") =
      .ok [(str "2024-01-01", 2), (str "2024-01-03", 1)] := by decide

/-! ## Language percentages (`get_languages`, src/app.py lines 402-411) -/

/-- Python `round(x, 2)` modelled over the rationals: scale by 100, round to
the nearest integer, scale back.  (CPython rounds ties on binary floats to
even; on the inputs below no tie at a hundredth arises, and the claims under
test concern the zero-total guard and the scaling formula, not tie-breaking.) -/
def round2 (q : ℚ) : ℚ :=
  ((round (100 * q) : ℤ) : ℚ) / 100

/-- `get_languages` (src/app.py lines 402-411), past URL parsing and fetch:
`total = sum(data.values()) or 1`, then
`percentages = {lang: round(count/total*100, 2) ...}`; the response carries
the raw byte map and the percentage map. -/
def get_languages (data : List (Str × ℕ)) : List (Str × ℕ) × List (Str × ℚ) :=
  let s := (data.map Prod.snd).sum
  let total := if s = 0 then 1 else s
  (data, data.map fun p => (p.1, round2 ((p.2 : ℚ) / (total : ℚ) * 100)))

example : (get_languages [(str "Python", 5000), (str "JavaScript", 2000)]).2 =
    [(str "Python", 7143 / 100), (str "JavaScript", 2857 / 100)] := by
  norm_num [get_languages, round2, round_eq]

/-! ## Code frequency (`get_code_frequency`, src/app.py lines 414-429) -/

/-- Upstream `stats/code_frequency` response: HTTP status plus decoded weeks
`[epochSeconds, additions, deletions]`. -/
structure StatsResp where
  status : ℕ
  body : List (ℤ × ℤ × ℤ)
  deriving Repr

/-- Outcome of the code-frequency endpoint: `HTTPException(202, ...)` when
upstream is still computing, `HTTPException(400, ...)` on other non-200
statuses, and otherwise the converted rows (an empty list when upstream sent
no data).  Rows carry the UTC epoch day (`utcfromtimestamp(w[0])`, here
`w[0] fdiv 86400`) with the additions and deletions. -/
inductive CodeFreqResult where
  | pending
  | fetchError
  | ok (rows : List (ℤ × ℤ × ℤ))
  deriving DecidableEq, Repr

/-- `get_code_frequency` (src/app.py lines 414-429), past URL parsing. -/
def get_code_frequency (resp : StatsResp) : CodeFreqResult :=
  if resp.status = 202 then .pending
  else if resp.status ≠ 200 then .fetchError
  else .ok (resp.body.map fun w => (Int.fdiv w.1 86400, w.2.1, w.2.2))

example : get_code_frequency ⟨200, [(1704067200, 100, -20)]⟩ =
    .ok [(19723, 100, -20)] := by decide
example : get_code_frequency ⟨202, [(1704067200, 100, -20)]⟩ = .pending := by decide

/-! ## Pull requests (`fetch_all_prs` / `get_pull_requests`,
src/app.py lines 433-460) -/

/-- The only field of a pull-request object the code consumes:
`pr.get("merged_at")`, a nullable timestamp string. -/
structure PullRequest where
  mergedAt : Option Str
  deriving DecidableEq, Repr

/-- Python truthiness of `pr.get("merged_at")`: `None` and `""` are falsy. -/
def mergedTruthy (pr : PullRequest) : Bool :=
  match pr.mergedAt with
  | none => false
  | some s => !s.isEmpty

/-- Decoded JSON body of one `pulls` page: a list, or something else
(`isinstance(data, list)` guard). -/
inductive PageBody where
  | list (prs : List PullRequest)
  | nonList
  deriving Repr

/-- One page response from the upstream `pulls` endpoint. -/
structure PageResp where
  status : ℕ
  body : PageBody
  deriving Repr

/-- The `while True` pagination loop of `fetch_all_prs` (src/app.py lines
433-450), with the upstream modelled as a map from page number to response
and an explicit fuel bound (the Python loop is unbounded; `none` marks fuel
exhaustion, a model artifact that never occurs in the finite scenarios
proved below).  A non-200 page returns `[]` discarding everything gathered;
a non-list or empty body stops with the accumulator; a short page (< 100)
stops after appending. -/
def fetchAllPrsGo (server : ℕ → PageResp) : ℕ → ℕ → List PullRequest →
    Option (List PullRequest)
  | 0, _, _ => none
  | fuel + 1, page, acc =>
      let resp := server page
      if resp.status ≠ 200 then some []
      else
        match resp.body with
        | .nonList => some acc
        | .list data =>
            if data.isEmpty then some acc
            else if data.length < 100 then some (acc ++ data)
            else fetchAllPrsGo server fuel (page + 1) (acc ++ data)

/-- `fetch_all_prs(owner, repo, state)`: paginate starting at page 1. -/
def fetch_all_prs (server : ℕ → PageResp) (fuel : ℕ) : Option (List PullRequest) :=
  fetchAllPrsGo server fuel 1 []

/-- The aggregate the `pull_requests` endpoint returns. -/
structure PrCounts where
  openCount : ℕ
  closedUnmerged : ℕ
  merged : ℕ
  deriving DecidableEq, Repr

/-- `sum(1 for pr in closed_prs if pr.get("merged_at"))`. -/
def countMerged (prs : List PullRequest) : ℕ :=
  (prs.filter mergedTruthy).length

/-- `get_pull_requests` (src/app.py lines 453-460), past URL parsing: two
independent paginations (open and closed), then a pure tally.  There is no
error branch: whatever the paginations produce is aggregated. -/
def get_pull_requests (serverOpen serverClosed : ℕ → PageResp) (fuel : ℕ) :
    Option PrCounts :=
  match fetch_all_prs serverOpen fuel, fetch_all_prs serverClosed fuel with
  | some openPrs, some closedPrs =>
      some ⟨openPrs.length, closedPrs.length - countMerged closedPrs,
        countMerged closedPrs⟩
  | _, _ => none

/-! ## Contribution heatmap (`get_contribution_heatmap`,
src/app.py lines 463-497)

The code groups commits by their `%Y-%m-%d` string, takes `min`/`max` of the
dict keys (lexicographic on strings, which for the zero-padded four-digit-year
dates upstream produces coincides with chronological order), and walks day by
day (`timedelta(days=1)`) from the earliest to the latest.  The embedding
works on the order-isomorphic image of those date strings: the proleptic
Gregorian ordinal (`toOrdinal`), on which one calendar day is `+ 1`. -/

/-- `min(counts)` over the grouped day keys (0 only for the empty list, a
case the caller guards). -/
def listMinD : List ℕ → ℕ
  | [] => 0
  | d :: ds => ds.foldl min d

/-- `max(counts)` over the grouped day keys. -/
def listMaxD : List ℕ → ℕ
  | [] => 0
  | d :: ds => ds.foldl max d

/-- `get_contribution_heatmap` (src/app.py lines 463-497), past URL parsing
and the commit pagination: group the fetched commits by day, and if any
exist (`if counts:` — the dict is non-empty exactly when some commit was
fetched), emit one `(day, count)` record per day from the earliest to the
latest, `counts.get(day, 0)` filling the gaps. -/
def get_contribution_heatmap (commits : List Datetime) : List (ℕ × ℕ) :=
  let days := commits.map toOrdinal
  let counts := tally days
  if days.isEmpty then []
  else
    let mn := listMinD days
    let mx := listMaxD days
    (List.range (mx + 1 - mn)).map fun i => (mn + i, lookupZero counts (mn + i))

example :
    get_contribution_heatmap [⟨2024, 1, 3⟩, ⟨2024, 1, 1⟩, ⟨2024, 1, 1⟩] =
      [(738886, 2), (738887, 0), (738888, 1)] := by decide

/-! ## Helper lemmas -/

/-- One `+= 1` raises the total of the tallied counts by one. -/
lemma sum_map_snd_bump {α : Type} [DecidableEq α] (key : α) :
    ∀ acc : List (α × ℕ),
      ((bump key acc).map Prod.snd).sum = ((acc.map Prod.snd).sum) + 1 := by
  intro acc
  induction acc with
  | nil => simp [bump]
  | cons p rest ih =>
      obtain ⟨k, n⟩ := p
      by_cases h : k = key <;> simp [bump, h, ih] <;> omega

/-- The tally of a list totals its length. -/
lemma sum_map_snd_tally {α : Type} [DecidableEq α] (xs : List α) :
    ((tally xs).map Prod.snd).sum = xs.length := by
  suffices h : ∀ (acc : List (α × ℕ)),
      ((xs.foldl (fun a k => bump k a) acc).map Prod.snd).sum
        = (acc.map Prod.snd).sum + xs.length by
    simpa using h []
  induction xs with
  | nil => intro acc; simp
  | cons x rest ih =>
      intro acc
      simp only [List.foldl_cons, List.length_cons]
      rw [ih (bump x acc), sum_map_snd_bump]
      omega

/-- `bump` affects a lookup only at its own key, by one. -/
lemma lookupZero_bump {α : Type} [DecidableEq α] (key k : α) :
    ∀ acc : List (α × ℕ),
      lookupZero (bump key acc) k
        = lookupZero acc k + (if key = k then 1 else 0) := by
  intro acc
  induction acc with
  | nil => by_cases h : key = k <;> simp [bump, lookupZero, h]
  | cons p rest ih =>
      obtain ⟨k0, n⟩ := p
      by_cases h0 : k0 = key
      · subst h0
        by_cases hk : k0 = k <;> simp [bump, lookupZero, hk]
      · by_cases hk : k0 = k
        · subst hk
          have : ¬key = k0 := fun h => h0 h.symm
          simp [bump, lookupZero, h0, this]
        · simp [bump, lookupZero, h0, hk, ih]

/-- `counts.get(key, 0)` on a tally is the number of occurrences. -/
lemma lookupZero_tally {α : Type} [DecidableEq α] (xs : List α) (k : α) :
    lookupZero (tally xs) k = xs.count k := by
  suffices h : ∀ acc : List (α × ℕ),
      lookupZero (xs.foldl (fun a x => bump x a) acc) k
        = lookupZero acc k + xs.count k by
    simpa [lookupZero] using h []
  induction xs with
  | nil => intro acc; simp [lookupZero]
  | cons x rest ih =>
      intro acc
      simp only [List.foldl_cons]
      rw [ih (bump x acc), lookupZero_bump]
      rw [List.count_cons]
      by_cases h : x = k <;> simp [h] <;> omega

/-- A fold by `min` is a lower bound for its seed and every element. -/
lemma foldl_min_le (l : List ℕ) :
    ∀ a : ℕ, l.foldl min a ≤ a ∧ ∀ d ∈ l, l.foldl min a ≤ d := by
  induction l with
  | nil => intro a; simp
  | cons x rest ih =>
      intro a
      have h := ih (min a x)
      refine ⟨le_trans h.1 (min_le_left a x), ?_⟩
      intro d hd
      rcases List.mem_cons.mp hd with h1 | h1
      · subst h1
        exact le_trans h.1 (min_le_right a d)
      · exact h.2 d h1

/-- A fold by `max` is an upper bound for its seed and every element. -/
lemma le_foldl_max (l : List ℕ) :
    ∀ a : ℕ, a ≤ l.foldl max a ∧ ∀ d ∈ l, d ≤ l.foldl max a := by
  induction l with
  | nil => intro a; simp
  | cons x rest ih =>
      intro a
      have h := ih (max a x)
      refine ⟨le_trans (Nat.le_max_left a x) h.1, ?_⟩
      intro d hd
      rcases List.mem_cons.mp hd with h1 | h1
      · subst h1
        exact le_trans (Nat.le_max_right a d) h.1
      · exact h.2 d h1

/-- A fold by `min` lands on its seed or on a list element. -/
lemma foldl_min_mem (l : List ℕ) :
    ∀ a : ℕ, l.foldl min a = a ∨ l.foldl min a ∈ l := by
  induction l with
  | nil => intro a; simp
  | cons x rest ih =>
      intro a
      rcases ih (min a x) with h | h
      · rw [List.foldl_cons, h]
        rcases Nat.le_total a x with hax | hax
        · exact Or.inl (by rw [min_def]; split <;> omega)
        · refine Or.inr ?_
          have hx : min a x = x := by rw [min_def]; split <;> omega
          rw [hx]
          exact List.mem_cons_self x rest
      · exact Or.inr (List.mem_cons_of_mem x h)

/-- A fold by `max` lands on its seed or on a list element. -/
lemma foldl_max_mem (l : List ℕ) :
    ∀ a : ℕ, l.foldl max a = a ∨ l.foldl max a ∈ l := by
  induction l with
  | nil => intro a; simp
  | cons x rest ih =>
      intro a
      rcases ih (max a x) with h | h
      · rw [List.foldl_cons, h]
        rcases Nat.le_total a x with hax | hax
        · refine Or.inr ?_
          have hx : max a x = x := by rw [max_def]; split <;> omega
          rw [hx]
          exact List.mem_cons_self x rest
        · exact Or.inl (by rw [max_def]; split <;> omega)
      · exact Or.inr (List.mem_cons_of_mem x h)

/-- `listMinD` bounds every element of a non-empty list from below. -/
lemma listMinD_le (l : List ℕ) (d : ℕ) (hd : d ∈ l) : listMinD l ≤ d := by
  cases l with
  | nil => cases hd
  | cons x rest =>
      rcases List.mem_cons.mp hd with h | h
      · subst h; exact (foldl_min_le rest d).1
      · exact (foldl_min_le rest x).2 d h

/-- `listMaxD` bounds every element of a non-empty list from above. -/
lemma le_listMaxD (l : List ℕ) (d : ℕ) (hd : d ∈ l) : d ≤ listMaxD l := by
  cases l with
  | nil => cases hd
  | cons x rest =>
      rcases List.mem_cons.mp hd with h | h
      · subst h; exact (le_foldl_max rest d).1
      · exact (le_foldl_max rest x).2 d h

/-- The minimum of a non-empty list is attained. -/
lemma listMinD_mem (l : List ℕ) (hl : l ≠ []) : listMinD l ∈ l := by
  cases l with
  | nil => exact absurd rfl hl
  | cons x rest =>
      rcases foldl_min_mem rest x with h | h
      · rw [listMinD, h]; exact List.mem_cons_self x rest
      · exact List.mem_cons_of_mem x h

/-- The maximum of a non-empty list is attained. -/
lemma listMaxD_mem (l : List ℕ) (hl : l ≠ []) : listMaxD l ∈ l := by
  cases l with
  | nil => exact absurd rfl hl
  | cons x rest =>
      rcases foldl_max_mem rest x with h | h
      · rw [listMaxD, h]; exact List.mem_cons_self x rest
      · exact List.mem_cons_of_mem x h

/-- A list of naturals summing to zero is all zeros. -/
lemma mem_eq_zero_of_sum_eq_zero (l : List ℕ) (h : l.sum = 0) :
    ∀ x ∈ l, x = 0 := by
  induction l with
  | nil => intro x hx; cases hx
  | cons y rest ih =>
      intro x hx
      simp only [List.sum_cons] at h
      rcases List.mem_cons.mp hx with h1 | h1
      · omega
      · exact ih (by omega) x h1

/-! ## Claims -/

/-- C9: `parse` is invariant under the listed suffixes — both
`https://host/owner/repo/` and `https://host/owner/repo.git` parse
successfully to owner `owner` and repo `repo`. -/
theorem C9_parse_suffix_invariance :
    parse_github_url (str "https://host/owner/repo/") = .ok (str "owner", str "repo") ∧
    parse_github_url (str "https://host/owner/repo.git") = .ok (str "owner", str "repo") := by
  decide

/-- C3, counterexample: the claim says `parse` fails whenever fewer than two
non-empty segments remain and that on success both fields are non-empty.
But `parse_github_url "/repo"` leaves only one non-empty segment, yet the
code succeeds and returns an empty owner (the length test at src/app.py
line 337 counts the empty segment before the leading `/`). -/
theorem C3_counterexample :
    parse_github_url (str "/repo") = .ok (str "", str "repo") ∧
    ((splitOnSlash (cleanUrl (str "/repo"))).filter (fun s => !s.isEmpty)).length = 1 := by
  decide

/-- C3, amended: `parse(url)` fails with `ParseError` exactly when, after
stripping trailing slashes and an optional `.git` suffix, fewer than two
`/`-separated segments remain **counting empty segments**; on success the
owner and repo fields are the last two segments of that split, which may be
empty strings. -/
theorem C3_amended_parse_error_iff :
    ∀ url : Str,
      (parse_github_url url = .error .invalidUrl ↔
        (splitOnSlash (cleanUrl url)).length < 2) ∧
      (∀ o r, parse_github_url url = .ok (o, r) →
        o = (splitOnSlash (cleanUrl url)).getD
              ((splitOnSlash (cleanUrl url)).length - 2) [] ∧
        r = (splitOnSlash (cleanUrl url)).getD
              ((splitOnSlash (cleanUrl url)).length - 1) []) := by
  intro url
  unfold parse_github_url
  by_cases h : (splitOnSlash (cleanUrl url)).length < 2 <;> simp [h]

/-- C3 witness: the amended success shape at the concrete URL `a/b`. -/
theorem C3_amended_parse_error_iff_witness :
    str "a" = (splitOnSlash (cleanUrl (str "a/b"))).getD
        ((splitOnSlash (cleanUrl (str "a/b"))).length - 2) [] ∧
    str "b" = (splitOnSlash (cleanUrl (str "a/b"))).getD
        ((splitOnSlash (cleanUrl (str "a/b"))).length - 1) [] :=
  (C3_amended_parse_error_iff (str "a/b")).2 (str "a") (str "b") (by decide)

/-- C4, counterexample: the claim says an invalid granularity is reported
regardless of the outcome of the upstream commit fetch.  But the code checks
the fetch first (src/app.py line 372) and validates the granularity only
afterwards (line 381): with a failed fetch and the invalid granularity
`yearly`, the caller sees the fetch failure, not `InvalidArgument`. -/
theorem C4_counterexample :
    get_commits ⟨500, []⟩ (str "yearly") = .error .fetchFailed ∧
    CommitsError.fetchFailed ≠ CommitsError.invalidFrequency := by
  decide

/-- C4, amended: whenever the upstream commit fetch succeeds, a granularity
that is none of `day`, `week`, `month` fails with `InvalidArgument`; when the
fetch fails, the fetch failure is reported instead (granularity validation
happens after the fetch). -/
theorem C4_amended_invalid_frequency :
    ∀ (commits : List Datetime) (frequency : Str),
      frequency ≠ str "day" → frequency ≠ str "week" → frequency ≠ str "month" →
      get_commits ⟨200, commits⟩ frequency = .error .invalidFrequency := by
  intro commits frequency hd hw hm
  simp [get_commits, freqFormat, hd, hw, hm]

/-- C4 witness: the amended theorem at granularity `yearly` with a
successful fetch of no commits. -/
theorem C4_amended_invalid_frequency_witness :
    get_commits ⟨200, []⟩ (str "yearly") = .error .invalidFrequency :=
  C4_amended_invalid_frequency [] (str "yearly") (by decide) (by decide) (by decide)

/-- C6: an upstream HTTP 202 on `stats/code_frequency` yields the
distinguished pending outcome, which differs both from the error outcome and
from every successful outcome — in particular from the empty success. -/
theorem C6_code_frequency_pending :
    (∀ body : List (ℤ × ℤ × ℤ), get_code_frequency ⟨202, body⟩ = .pending) ∧
    CodeFreqResult.pending ≠ CodeFreqResult.fetchError ∧
    (∀ rows : List (ℤ × ℤ × ℤ), CodeFreqResult.pending ≠ CodeFreqResult.ok rows) := by
  refine ⟨fun _ => rfl, by simp, fun rows => by simp⟩

/-- A pagination whose very first page comes back non-200 fails outright:
`fetch_all_prs` returns the empty list. -/
lemma fetch_all_prs_fail_first (s : ℕ → PageResp) (fuel : ℕ)
    (h : (s 1).status ≠ 200) : fetch_all_prs s (fuel + 1) = some [] := by
  unfold fetch_all_prs fetchAllPrsGo
  simp [h]

/-- Successful `get_pull_requests` results decompose into the two pagination
results and the pure tally over them. -/
lemma get_pull_requests_eq (sO sC : ℕ → PageResp) (fuel : ℕ) (cnts : PrCounts)
    (h : get_pull_requests sO sC fuel = some cnts) :
    ∃ o c, fetch_all_prs sO fuel = some o ∧ fetch_all_prs sC fuel = some c ∧
      cnts = ⟨o.length, c.length - countMerged c, countMerged c⟩ := by
  unfold get_pull_requests at h
  rcases ho : fetch_all_prs sO fuel with _ | o <;> rw [ho] at h
  · simp at h
  · rcases hc : fetch_all_prs sC fuel with _ | c <;> rw [hc] at h
    · simp at h
    · exact ⟨o, c, rfl, rfl, (Option.some.inj h).symm⟩

/-- C2, counterexample: the claim says that if either pagination fails
outright the aggregate is all-zero.  But `fetch_all_prs` returns `[]` only
for the failing state: with the open pagination failing (HTTP 500) and the
closed pagination returning one merged PR, the endpoint reports
`{open: 0, closedUnmerged: 0, merged: 1}`, not all-zero. -/
theorem C2_counterexample :
    get_pull_requests (fun _ => ⟨500, .list []⟩)
        (fun _ => ⟨200, .list [⟨some (str "2024-01-01T00:00:00Z")⟩]⟩) 1 =
      some ⟨0, 0, 1⟩ ∧
    (⟨0, 0, 1⟩ : PrCounts) ≠ ⟨0, 0, 0⟩ := by
  decide

/-- C2, amended: a pagination that fails outright contributes an empty list,
so only the counts derived from it are zero — `open` when the open
pagination fails, `merged` and `closedUnmerged` when the closed one fails —
and the aggregate is all-zero when both fail; in every case the endpoint
returns counts rather than a hard error. -/
theorem C2_amended_pr_leniency :
    ∀ (serverOpen serverClosed : ℕ → PageResp) (fuel : ℕ) (cnts : PrCounts),
      get_pull_requests serverOpen serverClosed fuel = some cnts →
      ((serverOpen 1).status ≠ 200 → cnts.openCount = 0) ∧
      ((serverClosed 1).status ≠ 200 →
        cnts.merged = 0 ∧ cnts.closedUnmerged = 0) ∧
      ((serverOpen 1).status ≠ 200 → (serverClosed 1).status ≠ 200 →
        cnts = ⟨0, 0, 0⟩) := by
  intro sO sC fuel cnts h
  obtain ⟨o, c, ho, hc, hcnts⟩ := get_pull_requests_eq _ _ _ _ h
  cases fuel with
  | zero => rw [show fetch_all_prs sO 0 = none from rfl] at ho; cases ho
  | succ n =>
      have hOpen : (sO 1).status ≠ 200 → o = [] := fun hf =>
        Option.some.inj (ho.symm.trans (fetch_all_prs_fail_first sO n hf))
      have hClosed : (sC 1).status ≠ 200 → c = [] := fun hf =>
        Option.some.inj (hc.symm.trans (fetch_all_prs_fail_first sC n hf))
      subst hcnts
      refine ⟨fun hf => ?_, fun hf => ?_, fun hf1 hf2 => ?_⟩
      · simp [hOpen hf]
      · simp [hClosed hf, countMerged]
      · simp [hOpen hf1, hClosed hf2, countMerged]

/-- C2 witness: both paginations fail at page 1 and the aggregate is
all-zero. -/
theorem C2_amended_pr_leniency_witness :
    get_pull_requests (fun _ => ⟨500, PageBody.list []⟩)
        (fun _ => ⟨500, PageBody.list []⟩) 1 = some ⟨0, 0, 0⟩ ∧
    PrCounts.mk 0 0 0 = ⟨0, 0, 0⟩ :=
  ⟨by decide,
    (C2_amended_pr_leniency (fun _ => ⟨500, PageBody.list []⟩)
        (fun _ => ⟨500, PageBody.list []⟩) 1 ⟨0, 0, 0⟩ (by decide)).2.2
      (by decide) (by decide)⟩

/-- C8: whenever the commit-frequency endpoint succeeds — which it does
exactly for the granularities `day`, `week`, `month` — the bucket counts sum
to the number of commits: each commit lands in exactly one bucket. -/
theorem C8_commit_frequency_total :
    ∀ (commits : List Datetime) (frequency : Str) (freqTable : List (Str × ℕ)),
      get_commits ⟨200, commits⟩ frequency = .ok freqTable →
      (freqTable.map Prod.snd).sum = commits.length := by
  intro commits frequency freqTable h
  unfold get_commits at h
  simp only [ne_eq, not_true_eq_false, if_false, reduceIte] at h
  rcases hf : freqFormat frequency with _ | fmt <;> rw [hf] at h
  · cases h
  · rw [← Except.ok.inj h, sum_map_snd_tally, List.length_map]

/-- C8 witness: three concrete commits bucketed by day sum to three. -/
theorem C8_commit_frequency_total_witness :
    (([(str "2024-01-01", 2), (str "2024-01-03", 1)] : List (Str × ℕ)).map
        Prod.snd).sum
      = ([⟨2024, 1, 1⟩, ⟨2024, 1, 1⟩, ⟨2024, 1, 3⟩] : List Datetime).length :=
  C8_commit_frequency_total [⟨2024, 1, 1⟩, ⟨2024, 1, 1⟩, ⟨2024, 1, 3⟩]
    (str "day") [(str "2024-01-01", 2), (str "2024-01-03", 1)] (by decide)

/-- `%W`-style arithmetic counts exactly the Mondays seen so far: for any
weekday offset `b`, `(n + 7 - ((b + n + 6) % 7)) / 7` is the number of
`k ≤ n` with `(b + k + 6) % 7 = 0`. -/
lemma weekCount (b : ℕ) :
    ∀ n : ℕ, (n + 7 - ((b + n + 6) % 7)) / 7
      = ((List.range (n + 1)).filter
          (fun k => decide ((b + k + 6) % 7 = 0))).length := by
  intro n
  induction n with
  | zero =>
      by_cases h0 : (b + 6) % 7 = 0 <;>
        simp [List.filter, Nat.add_zero, h0] <;> omega
  | succ n ih =>
      rw [List.range_succ, List.filter_append, List.length_append, ← ih]
      by_cases h1 : (b + (n + 1) + 6) % 7 = 0 <;>
        simp [List.filter, h1] <;> omega

/-- Number of Mondays of the year `dt.year` falling on day-of-year `k` for
some `k ≤ yday0 dt` — i.e. the Mondays of the year up to and including
`dt`'s calendar day.  (`toOrdinal ⟨y,1,1⟩ + k` is the ordinal of day `k` of
the year; it is a Monday when that ordinal is `≡ 1 (mod 7)`.) -/
def mondaysUpTo (dt : Datetime) : ℕ :=
  ((List.range (yday0 dt + 1)).filter
    (fun k => decide ((toOrdinal ⟨dt.year, 1, 1⟩ + k + 6) % 7 = 0))).length

/-- C1, counterexample: the claim says the week bucket key uses Sunday-first
week numbers.  2024-01-01 is a Monday: Sunday-first numbering (`%U`) places
it in week `00`, but the code's `%Y-%W` key is `2024-01`. -/
theorem C1_counterexample :
    get_commits ⟨200, [⟨2024, 1, 1⟩]⟩ (str "week") = .ok [(str "2024-01", 1)] ∧
    sundayFirstWeekKey ⟨2024, 1, 1⟩ = str "2024-00" ∧
    str "2024-01" ≠ str "2024-00" := by
  decide

/-- C1, amended: the `week` bucket key is the year plus the zero-padded
week-of-year computed with **Monday** as the first day of the week (`%W`:
the week number is the count of Mondays of the year up to and including the
commit's date, so days before the first Monday fall in week 00) — not
Sunday-first, and not ISO-8601. -/
theorem C1_amended_week_key_monday_first :
    ∀ dt : Datetime, 1 ≤ dt.day →
      weekKey dt = natToChars dt.year ++ ['-'] ++ pad2 (mondaysUpTo dt) := by
  intro dt h
  have h11 : toOrdinal ⟨dt.year, 1, 1⟩ = daysBeforeYear dt.year + 1 := by
    simp [toOrdinal, daysBeforeMonth]
  have hord : toOrdinal dt = toOrdinal ⟨dt.year, 1, 1⟩ + yday0 dt := by
    rw [h11]
    unfold toOrdinal yday0
    omega
  have key : weekOfYearW dt = mondaysUpTo dt := by
    unfold weekOfYearW weekdayMon mondaysUpTo
    rw [hord, ← weekCount (toOrdinal ⟨dt.year, 1, 1⟩) (yday0 dt)]
  unfold weekKey
  rw [key]

/-- C1 witness: the amended key shape at 2024-01-08, the second Monday of
2024. -/
theorem C1_amended_week_key_monday_first_witness :
    1 ≤ (2024 : ℕ) % 2025 ∧
    weekKey ⟨2024, 1, 8⟩ = natToChars 2024 ++ ['-'] ++ pad2 (mondaysUpTo ⟨2024, 1, 8⟩) :=
  ⟨by decide, C1_amended_week_key_monday_first ⟨2024, 1, 8⟩ (by decide)⟩

/-- The heatmap of a non-empty commit list, written as an explicit map over
the day range. -/
lemma heatmap_eq (commits : List Datetime) (hne : commits ≠ []) :
    get_contribution_heatmap commits
      = (List.range
            (listMaxD (commits.map toOrdinal) + 1 - listMinD (commits.map toOrdinal))).map
          (fun i => (listMinD (commits.map toOrdinal) + i,
            lookupZero (tally (commits.map toOrdinal))
              (listMinD (commits.map toOrdinal) + i))) := by
  unfold get_contribution_heatmap
  have : (commits.map toOrdinal).isEmpty = false := by
    simp [List.isEmpty_iff, hne]
  simp [this]

/-- C7: the heatmap of a non-empty commit list has exactly one record per
calendar day from the earliest to the latest commit day inclusive — length
`max - min + 1`, the `i`-th record covering day `min + i` with the number of
commits on that day (`0` for gap days); the heatmap of zero commits is
empty. -/
theorem C7_heatmap_daily_coverage :
    (get_contribution_heatmap [] = []) ∧
    ∀ commits : List Datetime, commits ≠ [] →
      (∀ d ∈ commits.map toOrdinal,
          listMinD (commits.map toOrdinal) ≤ d ∧
          d ≤ listMaxD (commits.map toOrdinal)) ∧
      (get_contribution_heatmap commits).length
          = listMaxD (commits.map toOrdinal) - listMinD (commits.map toOrdinal) + 1 ∧
      (∀ i, i < (get_contribution_heatmap commits).length →
        (get_contribution_heatmap commits).getD i (0, 0)
          = (listMinD (commits.map toOrdinal) + i,
             (commits.map toOrdinal).count
               (listMinD (commits.map toOrdinal) + i))) := by
  refine ⟨rfl, ?_⟩
  intro commits hne
  have hdne : commits.map toOrdinal ≠ [] := by
    simpa using hne
  have hmnmx : listMinD (commits.map toOrdinal) ≤ listMaxD (commits.map toOrdinal) :=
    le_listMaxD _ _ (listMinD_mem _ hdne)
  refine ⟨fun d hd => ⟨listMinD_le _ d hd, le_listMaxD _ d hd⟩, ?_, ?_⟩
  · rw [heatmap_eq commits hne]
    simp
    omega
  · intro i hi
    rw [heatmap_eq commits hne] at hi ⊢
    rw [List.length_map, List.length_range] at hi
    rw [List.getD_eq_getElem _ _ (by simpa using hi)]
    simp [lookupZero_tally]

/-- C7 witness: two commits two days apart give a three-day heatmap whose
middle day has count zero. -/
theorem C7_heatmap_daily_coverage_witness :
    (get_contribution_heatmap [⟨2024, 1, 1⟩, ⟨2024, 1, 3⟩]).length
        = listMaxD ([⟨2024, 1, 1⟩, ⟨2024, 1, 3⟩].map toOrdinal)
          - listMinD ([⟨2024, 1, 1⟩, ⟨2024, 1, 3⟩].map toOrdinal) + 1 ∧
    (get_contribution_heatmap [⟨2024, 1, 1⟩, ⟨2024, 1, 3⟩]).getD 1 (0, 0)
        = (listMinD ([⟨2024, 1, 1⟩, ⟨2024, 1, 3⟩].map toOrdinal) + 1,
           ([⟨2024, 1, 1⟩, ⟨2024, 1, 3⟩].map toOrdinal).count
             (listMinD ([⟨2024, 1, 1⟩, ⟨2024, 1, 3⟩].map toOrdinal) + 1)) :=
  ⟨(C7_heatmap_daily_coverage.2 [⟨2024, 1, 1⟩, ⟨2024, 1, 3⟩] (by decide)).2.1,
   (C7_heatmap_daily_coverage.2 [⟨2024, 1, 1⟩, ⟨2024, 1, 3⟩] (by decide)).2.2 1
     (by decide)⟩

/-- Summing pointwise sums over a mapped list splits. -/
lemma sum_map_add_nat (f g : ℕ → ℕ) (l : List ℕ) :
    (l.map fun i => f i + g i).sum = (l.map f).sum + (l.map g).sum := by
  induction l with
  | nil => simp
  | cons x xs ih =>
      simp only [List.map_cons, List.sum_cons, ih]
      omega

/-- A range-indexed indicator sums to 1 exactly when the target lies in the
range. -/
lemma indicator_range_sum (x mn n : ℕ) :
    ((List.range n).map fun i => if mn + i = x then 1 else 0).sum
      = if mn ≤ x ∧ x < mn + n then 1 else 0 := by
  induction n with
  | zero =>
      rw [if_neg (by omega)]
      simp
  | succ n ih =>
      rw [List.range_succ, List.map_append, List.sum_append, ih]
      simp only [List.map_cons, List.map_nil, List.sum_cons, List.sum_nil]
      split_ifs <;> omega

/-- Counting every value of a covering range picks up each list element
exactly once. -/
lemma count_range_sum (l : List ℕ) (mn n : ℕ)
    (hb : ∀ d ∈ l, mn ≤ d ∧ d < mn + n) :
    ((List.range n).map fun i => l.count (mn + i)).sum = l.length := by
  induction l with
  | nil => simp
  | cons x xs ih =>
      have hx := hb x (List.mem_cons_self x xs)
      have hxs : ∀ d ∈ xs, mn ≤ d ∧ d < mn + n := fun d hd =>
        hb d (List.mem_cons_of_mem x hd)
      have hcnt : (fun i => (x :: xs).count (mn + i))
          = fun i => xs.count (mn + i) + (if mn + i = x then 1 else 0) := by
        funext i
        rw [List.count_cons]
        by_cases h : mn + i = x
        · simp [h]
        · simp [h]
          omega
      rw [hcnt, sum_map_add_nat, ih hxs, indicator_range_sum,
        if_pos ⟨hx.1, hx.2⟩]
      simp

/-- C10: the per-day heatmap counts total the number of fetched commits —
zero-filling adds days but never changes the tally. -/
theorem C10_heatmap_total_commits :
    ∀ commits : List Datetime,
      ((get_contribution_heatmap commits).map Prod.snd).sum = commits.length := by
  intro commits
  by_cases hne : commits = []
  · subst hne; rfl
  · have hdne : commits.map toOrdinal ≠ [] := by simpa using hne
    have hmnmx : listMinD (commits.map toOrdinal) ≤ listMaxD (commits.map toOrdinal) :=
      le_listMaxD _ _ (listMinD_mem _ hdne)
    rw [heatmap_eq commits hne, List.map_map]
    have hcomp : (Prod.snd ∘ fun i =>
        (listMinD (commits.map toOrdinal) + i,
          lookupZero (tally (commits.map toOrdinal))
            (listMinD (commits.map toOrdinal) + i)))
        = fun i => (commits.map toOrdinal).count
            (listMinD (commits.map toOrdinal) + i) := by
      funext i
      simp [lookupZero_tally]
    rw [hcomp, count_range_sum (commits.map toOrdinal) _ _ ?_, List.length_map]
    intro d hd
    have h1 := listMinD_le _ d hd
    have h2 := le_listMaxD _ d hd
    omega

/-- C5: each language's percentage is `round(bytes[lang]/totalBytes*100, 2)`
with every percentage `0` when the total is `0` (the `or 1` guard avoids the
division error); in particular the empty map yields the empty percentage map
and `{"X": 0}` yields `{"X": 0}`. -/
theorem C5_language_percentages :
    (∀ data : List (Str × ℕ),
        (get_languages data).2 =
          data.map fun p =>
            (p.1,
              if (data.map Prod.snd).sum = 0 then 0
              else round2 ((p.2 : ℚ) / (((data.map Prod.snd).sum : ℕ) : ℚ) * 100))) ∧
    (get_languages []).2 = [] ∧
    (get_languages [(str "X", 0)]).2 = [(str "X", 0)] := by
  refine ⟨?_, rfl, ?_⟩
  · intro data
    unfold get_languages
    by_cases hs : (data.map Prod.snd).sum = 0
    · simp only [hs, if_pos rfl]
      refine List.map_congr_left ?_
      intro p hp
      have hz : p.2 = 0 := by
        have hmem : p.2 ∈ data.map Prod.snd := List.mem_map_of_mem Prod.snd hp
        exact mem_eq_zero_of_sum_eq_zero _ hs _ hmem
      simp [hz, round2]
    · simp [hs]
  · norm_num [get_languages, round2]

end StrangeMetrics
